import Mathlib

/-!
Verification of the HTNE sequence-classifier training core
(`src/backend/models/lstm.py`) against its specification.

The Python source is shallowly embedded below.  Pure list manipulation
(batch-index generation, batching, the weight-matrix builder) is translated
directly; stateful or library-backed operations (the optimizer step, the
recurrent engine, the file system, the random number generator) are made
explicit: random draws become an explicit stream that is consumed one draw
per call site, the file system becomes an explicit association list, and
tensors become rational-valued nested lists tagged with their device and
requires-grad flag where those attributes matter.
-/

/-! ## Batch-index generation (ModelBaseClass.get_indices, lines 161-168)

`np.random.permutation(dataset_size)` returns a permutation of
`[0, dataset_size)`; the embedding takes that permutation (`shuffled`) as an
explicit argument.  `shuffled_indices[range(i, i + batch_size)]` is the slice
`(shuffled.drop i).take batch_size`, and `shuffled_indices[range(e, n)]` is
`shuffled.drop e`.  Python `range(0, e, b)` has `(e + b - 1) / b` elements. -/
def ModelBaseClass.get_indices (shuffled : List ℕ) (batch_size : ℕ) : List (List ℕ) :=
  let dataset_size := shuffled.length
  let ending_index := dataset_size - dataset_size % batch_size
  let batch_indices := (List.range ((ending_index + batch_size - 1) / batch_size)).map
    (fun k => (shuffled.drop (k * batch_size)).take batch_size)
  if ending_index ≠ dataset_size then
    batch_indices ++ [shuffled.drop ending_index]
  else
    batch_indices

/-! ## The epoch loop (ModelBaseClass.update, lines 184-202)

The random stream `perms` is indexed by the number of permutations drawn so
far: each call of `np.random.permutation` (inside `get_indices`) consumes the
next element and advances the counter.  `rngCalls` in the result records how
many permutations the whole `update` call consumed, i.e. how many batch
partitions were generated. -/

/-- Counting variant of `get_indices`: draws the permutation from the stream
`perms` at position `k` and advances the counter, mirroring the single
`np.random.permutation` call at line 162. -/
def ModelBaseClass.get_indices_rng (perms : ℕ → List ℕ) (k : ℕ) (batch_size : ℕ) :
    List (List ℕ) × ℕ :=
  (ModelBaseClass.get_indices (perms k) batch_size, k + 1)

/-- `ModelBaseClass.get_batches` (lines 204-205): numpy fancy indexing
`data[indices]` gathers the rows at the given index list. -/
def ModelBaseClass.get_batches {α : Type} (data : List α) (batch_indices : List (List ℕ)) :
    List (List α) :=
  batch_indices.map (fun indices => indices.filterMap (fun i => data.get? i))

/-- `ModelBaseClass.create_batches` (lines 207-212): one `get_indices` call,
then gather both arrays with the same index lists. -/
def ModelBaseClass.create_batches {α β : Type} (perms : ℕ → List ℕ) (k : ℕ)
    (input_data : List α) (expected_output : List β) (batch_size : ℕ) :
    (List (List α) × List (List β)) × ℕ :=
  let r := ModelBaseClass.get_indices_rng perms k batch_size
  ((ModelBaseClass.get_batches input_data r.1,
    ModelBaseClass.get_batches expected_output r.1), r.2)

/-- Result of one `update` call: the model after training, the value returned
(the final epoch mean loss), and the number of batch partitions generated. -/
structure UpdateResult (μ : Type) where
  model : μ
  totalLoss : ℚ
  rngCalls : ℕ

/-- `ModelBaseClass.update` (lines 184-202), with the single-step routine
abstracted as `stepF` (it returns the updated model and the scalar loss).
The source calls `create_batches` ONCE, before the `for iteration in
range(epochs)` loop; each epoch then folds `step` over the same batch list
and ends with `total_loss /= len(data)`.  The `@use_gpu` decorator only
relocates tensor arguments and is modeled separately; it performs no batch
generation. -/
def ModelBaseClass.update {μ α β : Type} (stepF : μ → List α → List β → μ × ℚ)
    (perms : ℕ → List ℕ) (m : μ) (data : List α) (targets : List β)
    (batch_size : ℕ) (epochs : ℕ) : UpdateResult μ :=
  let cb := ModelBaseClass.create_batches perms 0 data targets batch_size
  let dataB := cb.1.1
  let targetsB := cb.1.2
  let k := cb.2
  let final := (List.range epochs).foldl
    (fun (acc : μ × ℚ) _ =>
      let epochRes := (dataB.zip targetsB).foldl
        (fun (a : μ × ℚ) bt =>
          let s := stepF a.1 bt.1 bt.2
          (s.1, a.2 + s.2))
        (acc.1, 0)
      (epochRes.1, epochRes.2 / (dataB.length : ℚ)))
    (m, 0)
  { model := final.1, totalLoss := final.2, rngCalls := k }

/-! ## Device transfer adapter (use_gpu / move_device / move_back, lines 84-128)

Python values relevant to the adapter: tensors (which expose a `cuda`
attribute, carry a device, and whose `cuda()` / `to(...)` methods return a
relocated copy), plain objects, and the dict that holds keyword arguments
(a dict has no `cuda` attribute).  Devices are numbered, with `cudaDevice`
the accelerator device that `cuda()` moves to. -/

inductive PyVal where
  | tensor (device : ℕ) (payload : ℕ)
  | obj (payload : ℕ)
  | dict (entries : List (String × PyVal))

/-- Accelerator device number: `arg.cuda()` relocates to it. -/
def cudaDevice : ℕ := 1

/-- `hasattr(v, "cuda")`: true exactly for tensors. -/
def PyVal.hasCuda : PyVal → Bool
  | .tensor _ _ => true
  | _ => false

/-- The `device` attribute (only read on tensors). -/
def PyVal.device : PyVal → ℕ
  | .tensor d _ => d
  | _ => 0

/-- `v.cuda()`: a copy of the tensor on the accelerator. -/
def PyVal.cuda : PyVal → PyVal
  | .tensor _ p => .tensor cudaDevice p
  | v => v

/-- `v.to(d)`: a copy of the tensor on device `d`. -/
def PyVal.to (v : PyVal) (d : ℕ) : PyVal :=
  match v with
  | .tensor _ p => .tensor d p
  | w => w

/-- `move_device` (lines 84-97): when `available`, relocate every
cuda-capable argument to the accelerator; everything else passes through. -/
def move_device (args : List PyVal) (kwargs : List (String × PyVal)) (available : Bool) :
    List PyVal × List (String × PyVal) :=
  (args.map (fun a => if a.hasCuda && available then a.cuda else a),
   kwargs.map (fun kv => if kv.2.hasCuda && available then (kv.1, kv.2.cuda) else kv))

/-- Positional loop of `move_back` (lines 102-105): `arg_devices[i]` is read
only for cuda-capable arguments; reading past the end of `arg_devices` is an
IndexError, and a recorded `None` device would be passed to `to`.  The
device list advances in lockstep with the argument position. -/
def move_back_args : List PyVal → List (Option ℕ) → Except String (List PyVal)
  | [], _ => .ok []
  | a :: rest, devs =>
    if a.hasCuda then
      match devs.head? with
      | some (some d) => (move_back_args rest devs.tail).map (fun r => a.to d :: r)
      | some none => .error ("TypeError")
      | none => .error ("IndexError")
    else
      (move_back_args rest devs.tail).map (fun r => a :: r)

/-- Keyword loop of `move_back` (lines 106-109).  The source line 108 reads
`value = value.to[kwarg_devices[key]]`: it first evaluates
`kwarg_devices[key]` (a KeyError when the key is absent) and then SUBSCRIPTS
the bound method `value.to`, which raises TypeError whenever this branch is
reached with a cuda-capable value. -/
def move_back_kwargs (kwarg_devices : List (String × ℕ)) :
    List (String × PyVal) → Except String (List (String × PyVal))
  | [] => .ok []
  | (k, v) :: rest =>
    if v.hasCuda then
      match kwarg_devices.lookup k with
      | some _ => .error ("TypeError")
      | none => .error ("KeyError")
    else
      (move_back_kwargs kwarg_devices rest).map (fun r => (k, v) :: r)

/-- `move_back` (lines 99-110): restore positional arguments, then keyword
arguments. -/
def move_back (arg_devices : List (Option ℕ)) (kwarg_devices : List (String × ℕ))
    (args : List PyVal) (kwargs : List (String × PyVal)) :
    Except String (List PyVal × List (String × PyVal)) :=
  match move_back_args args arg_devices with
  | .error e => .error e
  | .ok args2 =>
    match move_back_kwargs kwarg_devices kwargs with
    | .error e => .error e
    | .ok kwargs2 => .ok (args2, kwargs2)

/-- The wrapper `new_fun` built by `use_gpu` (lines 112-128).  The result is
the raised exception, or the return value of `f` together with the final
positional and keyword argument bindings of the wrapper after line 125.
Line 125 reads `args, kwargs = move_back(arg_devices, kwarg_devices, *args,
kwargs)`: the keyword dict is passed POSITIONALLY (there is no `**`), so
`move_back` receives it as one extra positional argument and an empty
keyword map. -/
def use_gpu_new_fun (available : Bool) (f : List PyVal → List (String × PyVal) → PyVal)
    (args : List PyVal) (kwargs : List (String × PyVal)) :
    Except String (PyVal × List PyVal × List (String × PyVal)) :=
  let arg_devices := args.map (fun a => if a.hasCuda then some a.device else none)
  let kwarg_devices := kwargs.filterMap
    (fun kv => if kv.2.hasCuda then some (kv.1, kv.2.device) else none)
  let moved := move_device args kwargs available
  let rv := f moved.1 moved.2
  match move_back arg_devices kwarg_devices (moved.1 ++ [.dict moved.2]) [] with
  | .error e => .error e
  | .ok restored => .ok (rv, restored.1, restored.2)

/-! ## The sequence classifier (GloveEmbedding lines 71-82, LSTM lines 230-261)

A parameter tensor is its rational-valued entries plus its `requires_grad`
flag.  The numeric engines of `nn.GRU` and `nn.Linear` (which map the layer
weights and an input sequence to an output sequence) and the exponential
used by `F.softmax` are external library code and enter the model as
explicit function arguments at construction. -/

structure EmbTensor where
  data : List (List ℚ)
  requiresGrad : Bool

/-- `GloveEmbedding.__init__` (lines 76-82): loads the pretrained weights
and sets `self.weight.requires_grad = train_embedding`, so backprop does not
update the embedding unless `train_embedding` is true. -/
def GloveEmbedding.init (weights : List (List ℚ)) (train_embedding : Bool) : EmbTensor :=
  { data := weights, requiresGrad := train_embedding }

structure LSTMModel where
  embedding : EmbTensor
  hidden_size : ℕ
  gruW : EmbTensor
  linearW : EmbTensor
  gruEngine : List (List ℚ) → List (List ℚ) → List (List ℚ)
  linearEngine : List (List ℚ) → List ℚ → List ℚ
  expf : ℚ → ℚ
  weight_shape : ℕ × ℕ
  padding_idx : ℕ
  use_avg : Bool

/-- `LSTM.__init__` (lines 232-245).  `gruEngine`, `linearEngine` and `expf`
stand for the library layer implementations; `gru0` and `linear0` are the
fresh random initial weights that `nn.GRU` / `nn.Linear` construction draws.
The source builds `GloveEmbedding(weights, ...)` WITHOUT `train_embedding`,
so the Python default `False` applies, and line 245 assigns
`self.use_avg = True`, discarding the `use_avg` argument. -/
def LSTM.init (gruEngine : List (List ℚ) → List (List ℚ) → List (List ℚ))
    (linearEngine : List (List ℚ) → List ℚ → List ℚ) (expf : ℚ → ℚ)
    (gru0 linear0 : List (List ℚ)) (weights : List (List ℚ)) (classes : ℕ)
    (use_avg : Bool) (hidden_size : ℕ) : LSTMModel :=
  { embedding := GloveEmbedding.init weights false
  , hidden_size := hidden_size
  , gruW := { data := gru0, requiresGrad := true }
  , linearW := { data := linear0, requiresGrad := true }
  , gruEngine := gruEngine
  , linearEngine := linearEngine
  , expf := expf
  , weight_shape := (weights.length, (weights.headD []).length)
  , padding_idx := weights.length - 1
  , use_avg := true }

/-- `F.softmax(row, dim=-1)` on one class-score row, with the exponential
abstracted as `expf`. -/
def rowSoftmax (expf : ℚ → ℚ) (row : List ℚ) : List ℚ :=
  let s := (row.map expf).sum
  row.map (fun x => expf x / s)

/-- `F.softmax(output, dim=-1)` on a batch-major (document × time × class)
tensor: normalizes every time-step row. -/
def softmaxLastDim (expf : ℚ → ℚ) (t : List (List (List ℚ))) : List (List (List ℚ)) :=
  t.map (fun doc => doc.map (rowSoftmax expf))

/-- `output[:, -1, :]`: the last time step of every document. -/
def sliceLastStep (t : List (List (List ℚ))) : List (List ℚ) :=
  t.map (fun doc => doc.getLastD [])

/-- The per-document projected sequence of `LSTM.forward` before output
selection: embedding lookup (row `i` of the embedding matrix per index),
the recurrent engine over the embedded sequence (the zero initial hidden
state of `init_hidden` is internal to the engine), then the linear
projection of every time step. -/
def LSTM.projSeq (m : LSTMModel) (doc : List ℕ) : List (List ℚ) :=
  (m.gruEngine m.gruW.data (doc.map (fun i => m.embedding.data.getD i []))).map
    (m.linearEngine m.linearW.data)

/-- `LSTM.forward` (lines 252-261): project every time step, apply softmax
over the class dimension when NOT training, and return `output[:, -1, :]`.
The `self.training` flag set by `train()` / `eval()` is the explicit
`training` argument. -/
def LSTM.forward (m : LSTMModel) (training : Bool) (data : List (List ℕ)) : List (List ℚ) :=
  let output := data.map (fun doc => LSTM.projSeq m doc)
  let selected := if training then output else softmaxLastDim m.expf output
  sliceLastStep selected

/-! ## Single-step update (ModelBaseClass.step, lines 176-182)

`loss.backward()` stores a gradient exactly on the parameters whose
`requires_grad` flag is true; `optimizer().step()` (Adam) updates exactly
the parameters that carry a gradient, applying some update rule `upd` to
the current value and the gradient.  The gradient values themselves are
arbitrary inputs here. -/

/-- One optimizer update of a single parameter tensor: applied only when a
gradient is present. -/
def optStep (upd : List (List ℚ) → List (List ℚ) → List (List ℚ))
    (grad : Option (List (List ℚ))) (t : EmbTensor) : EmbTensor :=
  match grad with
  | some g => { t with data := upd t.data g }
  | none => t

/-- `ModelBaseClass.step` restricted to its effect on the parameter set:
zero the gradients, backpropagate (a gradient appears only on tensors with
`requires_grad = true`), then one optimizer step on every gradient-carrying
parameter. -/
def ModelBaseClass.step (upd : List (List ℚ) → List (List ℚ) → List (List ℚ))
    (gEmb gGru gLin : List (List ℚ)) (m : LSTMModel) : LSTMModel :=
  let embGrad := if m.embedding.requiresGrad then some gEmb else none
  let gruGrad := if m.gruW.requiresGrad then some gGru else none
  let linGrad := if m.linearW.requiresGrad then some gLin else none
  { m with
    embedding := optStep upd embGrad m.embedding
    gruW := optStep upd gruGrad m.gruW
    linearW := optStep upd linGrad m.linearW }

/-! ## Validation (ModelBaseClass.validation lines 170-174, LSTM.loss 247-248)

`LSTM.loss` is `def loss(self): return self.loss_function` — a bound method
that accepts ZERO arguments besides `self` and returns the cross-entropy
evaluator (`step` accordingly calls `self.loss()(predictions, target)`).
`validation` instead executes `self.loss(predictions, targets)`, calling the
bound method with TWO positional arguments. -/

/-- Number of arguments (besides `self`) accepted by `LSTM.loss`. -/
def LSTM.loss_argcount : ℕ := 0

/-- `ModelBaseClass.validation`: runs the forward pass under `torch.no_grad`
(no parameter is touched), then evaluates `self.loss(predictions, targets)`.
A Python call raises TypeError unless the number of arguments passed
matches the number the method accepts. -/
def ModelBaseClass.validation (m : LSTMModel) (training : Bool) (data : List (List ℕ))
    (targets : List ℕ) (lossEval : List (List ℚ) → List ℕ → ℚ) : Except String ℚ :=
  let predictions := LSTM.forward m training data
  if LSTM.loss_argcount = 2 then .ok (lossEval predictions targets)
  else .error ("TypeError")

/-! ## Checkpoint I/O (load_model lines 214-220, save_model lines 222-227)

The file system is explicit: for `load_model` it is an association list from
paths to stored state dicts; for `save_model` only the set of existing
directories matters.  `Path(path)` on a string is modeled as the identity. -/

/-- `ModelBaseClass.load_model`: if the path exists, `torch.load` +
`load_state_dict` replace the full in-memory parameter set and `self` is
returned; otherwise the `if` falls through, `None` is returned, and the
parameters are untouched.  The result is (returned value, parameter state
after the call). -/
def ModelBaseClass.load_model {σ : Type} (fs : List (String × σ)) (m : σ) (path : String) :
    Option σ × σ :=
  match fs.lookup path with
  | some sd => (some sd, sd)
  | none => (none, m)

/-- The value of the `_path` attribute on a freshly constructed `LSTM`:
`ModelBaseClass.__init__` (lines 132-137) sets `device` and
`use_tensorboard`, `LSTM.__init__` (lines 232-245) sets `embedding`,
`hidden_size`, `gru`, `linear`, `loss_function`, `adam`, `weight_shape` and
`use_avg`; NO code ever assigns `_path`, so the attribute does not exist. -/
def lstm_path_attr : Option String := none

/-- `ModelBaseClass.save_model` (lines 222-227): after wrapping `path`, line
225 reads `self._path.parent` — an AttributeError when `_path` was never
assigned.  Only if the attribute existed would the parent directory be
created (when absent) and `torch.save(self.state_dict(), path)` be reached;
the result is then the directory set after the call and the path written. -/
def ModelBaseClass.save_model (upath : Option String) (parent : String → String)
    (dirs : List String) (path : String) : Except String (List String × String) :=
  match upath with
  | none => .error ("AttributeError")
  | some p =>
    let dirs2 := if dirs.contains (parent p) then dirs else parent p :: dirs
    .ok (dirs2, path)

/-! ## Weight-matrix construction (get_weights, lines 50-69)

The glove file is the list of its parsed lines (token, vector); the vocab is
the list of distinct corpus tokens (`get_vocab` returns a set, hence no
duplicates); `randv` is the stream of `np.random.random` draws, consumed in
order.  The fold state is (word_indices, weights, idx, draws so far). -/

/-- Body of the `for word in vocab` loop (lines 62-66): a vocab word already
present in `word_indices` is skipped; otherwise one `np.random.random` draw
is appended to the weights, the word is recorded at index `idx`, and both
`idx` and the draw counter advance. -/
def gw_step (randv : ℕ → List ℚ)
    (st : List (String × ℕ) × List (List ℚ) × ℕ × ℕ) (word : String) :
    List (String × ℕ) × List (List ℚ) × ℕ × ℕ :=
  if (st.1.map (fun p => p.1)).contains word then st
  else (st.1 ++ [(word, st.2.2.1)], st.2.1 ++ [randv st.2.2.2],
        st.2.2.1 + 1, st.2.2.2 + 1)

def get_weights (file : List (String × List ℚ)) (vocab : List String)
    (randv : ℕ → List ℚ) (add_zero : Bool) : List (String × ℕ) × List (List ℚ) :=
  let word_indices := file.enum.map (fun p => (p.2.1, p.1))
  let weights := file.map (fun p => p.2)
  let st := vocab.foldl (gw_step randv) (word_indices, weights, file.length, 0)
  (st.1,
   if add_zero then st.2.1 ++ [List.replicate (file.headD (("") , [])).2.length 0]
   else st.2.1)

/-- The vocabulary tokens absent from the weight file, in vocab order. -/
def missingWords (file : List (String × List ℚ)) (vocab : List String) : List String :=
  vocab.filter (fun w => !((file.map (fun p => p.1)).contains w))

/-- A concrete classifier instance (identity engines, constant exponential,
one-row embedding matrix) used to evaluate the forward-pass theorem on a
concrete input. -/
def lstmW : LSTMModel :=
  LSTM.init (fun _ seq => seq) (fun _ v => v) (fun _ => 1) [[0]] [[0]] [[1]] 1 false 64

/-! ## Theorems -/

/-- Chunks of width `b` taken at offsets `0, b, 2*b, ...` concatenate to an
initial segment of the list. -/
theorem chunks_flatten {α : Type} (l : List α) (b : ℕ) :
    ∀ q : ℕ,
      ((List.range q).map (fun k => (l.drop (k * b)).take b)).flatten = l.take (q * b) := by
  intro q
  induction q with
  | zero => simp
  | succ n ih =>
    rw [List.range_succ, List.map_append, List.flatten_append, ih]
    simp only [List.map_cons, List.map_nil, List.flatten_cons, List.flatten_nil,
      List.append_nil]
    rw [add_one_mul, List.take_add]

/-- Claim C2: for every dataset size N and batch size B with 0 < B ≤ N, the
batch-index generation operation applied to a permutation of `[0, N)` returns
chunks that concatenate back to the permutation (contiguous partition), whose
indices are exactly `{0, ..., N-1}` each once (no duplicates, no omissions),
with the first `N - N % B` indices in chunks of size exactly B and one final
chunk of the `N % B` remaining indices when that remainder is nonzero. -/
theorem get_indices_partition (N B : ℕ) (shuffled : List ℕ)
    (hperm : shuffled.Perm (List.range N)) (hB : 0 < B) (hBN : B ≤ N) :
    (ModelBaseClass.get_indices shuffled B).flatten = shuffled
    ∧ (ModelBaseClass.get_indices shuffled B).flatten.Perm (List.range N)
    ∧ (ModelBaseClass.get_indices shuffled B).flatten.Nodup
    ∧ (∀ i, i ∈ (ModelBaseClass.get_indices shuffled B).flatten ↔ i < N)
    ∧ (ModelBaseClass.get_indices shuffled B).map List.length
        = List.replicate (N / B) B ++ (if N % B = 0 then [] else [N % B]) := by
  have hlen : shuffled.length = N := by
    simpa using hperm.length_eq
  have hmod : N % B < B := Nat.mod_lt _ hB
  have hend : N - N % B = N / B * B := by
    have h := Nat.div_add_mod N B
    rw [mul_comm] at h
    generalize N / B * B = X at h ⊢
    omega
  -- the number of main chunks is N / B
  have hq : (N - N % B + B - 1) / B = N / B := by
    rw [hend]
    have h2 : N / B * B + B - 1 = (B - 1) + N / B * B := by omega
    rw [h2, Nat.add_mul_div_right _ _ hB, Nat.div_eq_of_lt (show B - 1 < B by omega),
      Nat.zero_add]
  have hmain : ((List.range (N / B)).map (fun k => (shuffled.drop (k * B)).take B)).map
      List.length = List.replicate (N / B) B := by
    rw [List.eq_replicate_iff]
    constructor
    · simp
    · intro b hb
      simp only [List.map_map, List.mem_map, List.mem_range, Function.comp] at hb
      obtain ⟨k, hk, hbk⟩ := hb
      have hkB : k * B + B ≤ N := by
        have h3 : (k + 1) * B ≤ N / B * B := Nat.mul_le_mul_right B (Nat.succ_le_of_lt hk)
        calc k * B + B = (k + 1) * B := by ring
        _ ≤ N / B * B := h3
        _ = N - N % B := hend.symm
        _ ≤ N := Nat.sub_le _ _
      rw [← hbk]
      simp only [List.length_take, List.length_drop, hlen]
      have h4 : B ≤ N - k * B := by
        generalize k * B = a at hkB
        omega
      exact min_eq_left h4
  have hjoin : (ModelBaseClass.get_indices shuffled B).flatten = shuffled := by
    unfold ModelBaseClass.get_indices
    simp only [hlen, hq]
    by_cases hr : N % B = 0
    · rw [if_neg (by omega)]
      rw [chunks_flatten]
      have hNB : N / B * B = N := by rw [← hend]; omega
      rw [hNB, ← hlen, List.take_length]
    · rw [if_pos (by omega)]
      rw [List.flatten_append, chunks_flatten]
      simp only [List.flatten_cons, List.flatten_nil, List.append_nil]
      rw [← hend, List.take_append_drop]
  refine ⟨hjoin, ?_, ?_, ?_, ?_⟩
  · rw [hjoin]; exact hperm
  · rw [hjoin]; exact (hperm.nodup_iff).2 (List.nodup_range N)
  · intro i; rw [hjoin, hperm.mem_iff, List.mem_range]
  · unfold ModelBaseClass.get_indices
    simp only [hlen, hq]
    by_cases hr : N % B = 0
    · rw [if_neg (by omega), if_pos hr, hmain, List.append_nil]
    · rw [if_pos (by omega), if_neg hr, List.map_append, hmain]
      simp only [List.map_cons, List.map_nil, List.length_drop, hlen]
      have h5 : N - (N - N % B) = N % B := by omega
      rw [h5]

/-- Witness for C2 at N = 3, B = 2, shuffled = [2, 0, 1]. -/
theorem get_indices_partition_witness :
    (ModelBaseClass.get_indices [2, 0, 1] 2).flatten = [2, 0, 1]
    ∧ (ModelBaseClass.get_indices [2, 0, 1] 2).flatten.Perm (List.range 3)
    ∧ (ModelBaseClass.get_indices [2, 0, 1] 2).flatten.Nodup
    ∧ (∀ i, i ∈ (ModelBaseClass.get_indices [2, 0, 1] 2).flatten ↔ i < 3)
    ∧ (ModelBaseClass.get_indices [2, 0, 1] 2).map List.length
        = List.replicate (3 / 2) 2 ++ (if 3 % 2 = 0 then [] else [3 % 2]) :=
  get_indices_partition 3 2 [2, 0, 1] (by decide) (by decide) (by decide)

/-- Claim C1, counterexample: with dataset [10, 20, 30], batch size 2 and TWO
epochs, `update` generates exactly ONE batch partition (one
`np.random.permutation` draw), not one per epoch: `create_batches` is called
once, before the epoch loop. -/
theorem update_single_partition_counterexample :
    (ModelBaseClass.update (fun (m : ℕ) _ _ => (m, (0 : ℚ)))
      (fun _ => [2, 0, 1]) 0 [10, 20, 30] [0, 1, 2] 2 2).rngCalls = 1
    ∧ (ModelBaseClass.update (fun (m : ℕ) _ _ => (m, (0 : ℚ)))
      (fun _ => [2, 0, 1]) 0 [10, 20, 30] [0, 1, 2] 2 2).rngCalls ≠ 2 := by
  constructor
  · rfl
  · intro h
    simp only [ModelBaseClass.update, ModelBaseClass.create_batches,
      ModelBaseClass.get_indices_rng] at h
    omega

/-- Claim C1 (amended): for every step routine, permutation stream, model,
dataset, batch size and epoch count, `update` performs exactly one
batch-index generation for the whole call: the dataset is partitioned once,
before the epoch loop, and the same batches are reused in every epoch. -/
theorem update_partitions_once {μ α β : Type} (stepF : μ → List α → List β → μ × ℚ)
    (perms : ℕ → List ℕ) (m : μ) (data : List α) (targets : List β)
    (batch_size epochs : ℕ) :
    (ModelBaseClass.update stepF perms m data targets batch_size epochs).rngCalls = 1 :=
  rfl

/-- Claim C3, failing input: a `use_gpu(available=True)`-wrapped call with no
positional arguments and one keyword argument `x`, a tensor on device 0.
The call succeeds, the return value of `f` is passed through, but the final
keyword bindings are EMPTY and the tensor passed under `x` now lives on the
accelerator device (`cudaDevice = 1`), not on its recorded original device 0:
because line 125 passes the keyword dict positionally instead of unpacking
it, keyword arguments are never moved back. -/
theorem use_gpu_kwarg_not_restored :
    use_gpu_new_fun true (fun _ _ => .obj 5) [] [(("x"), .tensor 0 7)]
      = .ok (.obj 5, [.dict [(("x"), .tensor cudaDevice 7)]], [])
    ∧ cudaDevice ≠ 0 :=
  ⟨rfl, by decide⟩

/-- Taking the last element commutes with mapping over a nonempty list. -/
theorem getLastD_map_of_ne_nil {α β : Type} (f : α → β) (l : List α) (h : l ≠ [])
    (a : α) (b : β) : (l.map f).getLastD b = f (l.getLastD a) := by
  obtain ⟨x, hx⟩ := Option.isSome_iff_exists.1 (List.getLast?_isSome.2 h)
  rw [List.getLastD_eq_getLast?, List.getLastD_eq_getLast?, List.getLast?_map, hx]
  simp

/-- Dividing every element of a list by `s` divides the sum by `s`. -/
theorem list_sum_map_div (l : List ℚ) (s : ℚ) :
    (l.map (fun x => x / s)).sum = l.sum / s := by
  induction l with
  | nil => simp
  | cons a t ih => simp [ih, add_div]

/-- A softmax row over a positive exponential sums to one. -/
theorem rowSoftmax_sum (expf : ℚ → ℚ) (row : List ℚ) (hpos : ∀ x, 0 < expf x)
    (h : row ≠ []) : (rowSoftmax expf row).sum = 1 := by
  have hs : 0 < (row.map expf).sum := by
    apply List.sum_pos
    · intro x hx
      obtain ⟨y, _, hy⟩ := List.mem_map.1 hx
      exact hy ▸ hpos y
    · simpa using h
  unfold rowSoftmax
  have hmm : row.map (fun x => expf x / (row.map expf).sum)
      = (row.map expf).map (fun y => y / (row.map expf).sum) := by
    rw [List.map_map]
    rfl
  rw [hmm, list_sum_map_div, div_self (ne_of_gt hs)]

/-- Claim C5: the forward pass returns exactly the last time step of the
linearly projected recurrent output for every document; in training mode the
raw scores, in evaluation mode the row-wise softmax of that same projected
vector, which then sums to one (a normalized distribution).  Hypotheses: the
projected sequence of every document is nonempty (a document has at least
one time step, else `output[:, -1, :]` is out of range) and its last row is
nonempty (at least one class), and the exponential is positive — true of the
real exponential used by `F.softmax`. -/
theorem lstm_forward_output_selection (m : LSTMModel) (data : List (List ℕ))
    (h1 : ∀ doc ∈ data, LSTM.projSeq m doc ≠ [])
    (h2 : ∀ doc ∈ data, (LSTM.projSeq m doc).getLastD [] ≠ [])
    (hpos : ∀ x, 0 < m.expf x) :
    LSTM.forward m true data = data.map (fun doc => (LSTM.projSeq m doc).getLastD [])
    ∧ LSTM.forward m false data
        = data.map (fun doc => rowSoftmax m.expf ((LSTM.projSeq m doc).getLastD []))
    ∧ ∀ row ∈ LSTM.forward m false data, row.sum = 1 := by
  have htrain : LSTM.forward m true data
      = data.map (fun doc => (LSTM.projSeq m doc).getLastD []) := by
    simp [LSTM.forward, sliceLastStep, List.map_map, Function.comp]
  have heval : LSTM.forward m false data
      = data.map (fun doc => rowSoftmax m.expf ((LSTM.projSeq m doc).getLastD [])) := by
    simp only [LSTM.forward, Bool.false_eq_true, if_false, softmaxLastDim, sliceLastStep,
      List.map_map, Function.comp]
    apply List.map_congr_left
    intro doc hdoc
    exact getLastD_map_of_ne_nil _ _ (h1 doc hdoc) [] []
  refine ⟨htrain, heval, ?_⟩
  intro row hrow
  rw [heval] at hrow
  obtain ⟨doc, hdoc, hd⟩ := List.mem_map.1 hrow
  rw [← hd]
  exact rowSoftmax_sum m.expf _ hpos (h2 doc hdoc)

/-- Witness for C5 on the concrete instance `lstmW` and batch `[[0]]`. -/
theorem lstm_forward_output_selection_witness :
    LSTM.forward lstmW true [[0]]
      = [[0]].map (fun doc => (LSTM.projSeq lstmW doc).getLastD [])
    ∧ LSTM.forward lstmW false [[0]]
        = [[0]].map (fun doc => rowSoftmax lstmW.expf ((LSTM.projSeq lstmW doc).getLastD []))
    ∧ ∀ row ∈ LSTM.forward lstmW false [[0]], row.sum = 1 :=
  lstm_forward_output_selection lstmW [[0]]
    (by intro doc hdoc; simp at hdoc; subst hdoc; decide)
    (by intro doc hdoc; simp at hdoc; subst hdoc; decide)
    (by intro x; show (0 : ℚ) < 1; norm_num)

/-- Claim C6: on every freshly constructed classifier, a single optimizer
step leaves the embedding weight matrix — in particular the row at the
reserved padding index — unchanged, whatever the update rule and gradient
values: `GloveEmbedding` is built with the default `train_embedding=False`,
so the embedding carries no gradient and Adam never touches it. -/
theorem lstm_step_embedding_frozen
    (gruEngine : List (List ℚ) → List (List ℚ) → List (List ℚ))
    (linearEngine : List (List ℚ) → List ℚ → List ℚ) (expf : ℚ → ℚ)
    (gru0 linear0 weights : List (List ℚ)) (classes : ℕ) (use_avg : Bool)
    (hidden_size : ℕ) (upd : List (List ℚ) → List (List ℚ) → List (List ℚ))
    (gEmb gGru gLin : List (List ℚ)) :
    (ModelBaseClass.step upd gEmb gGru gLin
        (LSTM.init gruEngine linearEngine expf gru0 linear0 weights classes use_avg
          hidden_size)).embedding.data = weights
    ∧ ((ModelBaseClass.step upd gEmb gGru gLin
        (LSTM.init gruEngine linearEngine expf gru0 linear0 weights classes use_avg
          hidden_size)).embedding.data).getD (weights.length - 1) []
      = weights.getD (weights.length - 1) [] :=
  ⟨rfl, rfl⟩

/-- Claim C10: the constructed classifier always has `use_avg = true`
whatever value was passed, and the forward pass is identical for any two
values of the constructor argument. -/
theorem lstm_use_avg_ignored
    (gruEngine : List (List ℚ) → List (List ℚ) → List (List ℚ))
    (linearEngine : List (List ℚ) → List ℚ → List ℚ) (expf : ℚ → ℚ)
    (gru0 linear0 weights : List (List ℚ)) (classes : ℕ) (a1 a2 : Bool)
    (hidden_size : ℕ) :
    (LSTM.init gruEngine linearEngine expf gru0 linear0 weights classes a1
        hidden_size).use_avg = true
    ∧ ∀ (training : Bool) (data : List (List ℕ)),
        LSTM.forward (LSTM.init gruEngine linearEngine expf gru0 linear0 weights classes
            a1 hidden_size) training data
          = LSTM.forward (LSTM.init gruEngine linearEngine expf gru0 linear0 weights
              classes a2 hidden_size) training data :=
  ⟨rfl, fun _ _ => rfl⟩

/-- Claim C4, failing behavior: for EVERY model, mode, batch and target set,
`validation` raises TypeError instead of returning the loss, because it
calls the zero-argument method `LSTM.loss` with two arguments (`step` calls
it correctly as `self.loss()(predictions, expected_output)`). -/
theorem validation_raises_type_error (m : LSTMModel) (training : Bool)
    (data : List (List ℕ)) (targets : List ℕ)
    (lossEval : List (List ℚ) → List ℕ → ℚ) :
    ModelBaseClass.validation m training data targets lossEval = .error ("TypeError") :=
  rfl

/-- Claim C7: loading from a path that does not exist returns without error
and leaves the parameter state unchanged; loading from an existing path
replaces the parameter state with the stored snapshot. -/
theorem load_model_cases {σ : Type} (fs : List (String × σ)) (m : σ) (path : String) :
    (fs.lookup path = none → ModelBaseClass.load_model fs m path = (none, m))
    ∧ ∀ sd, fs.lookup path = some sd →
        ModelBaseClass.load_model fs m path = (some sd, sd) := by
  constructor
  · intro h
    simp [ModelBaseClass.load_model, h]
  · intro sd h
    simp [ModelBaseClass.load_model, h]

/-- Witness for C7: a one-file store, one missing path and one present path. -/
theorem load_model_cases_witness :
    ModelBaseClass.load_model [(("a"), 5)] 9 ("b") = (none, 9)
    ∧ ModelBaseClass.load_model [(("a"), 5)] 9 ("a") = (some 5, 5) :=
  ⟨(load_model_cases [(("a"), 5)] 9 ("b")).1 rfl,
   (load_model_cases [(("a"), 5)] 9 ("a")).2 5 rfl⟩

/-- Claim C8, failing behavior: for every directory state and every path,
`save_model` on a constructed `LSTM` raises AttributeError — line 225 reads
`self._path`, which no code ever assigns — so no snapshot is written and no
directory is created. -/
theorem save_model_raises_attribute_error (parent : String → String)
    (dirs : List String) (path : String) :
    ModelBaseClass.save_model lstm_path_attr parent dirs path
      = .error ("AttributeError") :=
  rfl

/-- Claim C9, counterexample: a two-line weight file `a -> [1]`, `b -> [2]`
and the one-word vocabulary `["c"]`.  `get_weights` with `add_zero=True`
keeps BOTH file rows, adds one random row for the missing word and one zero
row: 4 rows, not `vocabulary_size + 1 = 2`. -/
theorem get_weights_dims_counterexample :
    ((get_weights [(("a"), [1]), (("b"), [2])] [("c")] (fun _ => [5]) true).2).length = 4
    ∧ ((get_weights [(("a"), [1]), (("b"), [2])] [("c")] (fun _ => [5]) true).2).length
        ≠ [("c")].length + 1 := by
  have h4 : ((get_weights [(("a"), [1]), (("b"), [2])] [("c")] (fun _ => [5]) true).2).length
      = 4 := rfl
  refine ⟨h4, ?_⟩
  rw [h4]
  decide

/-- Effect of the vocab loop of `get_weights` on the weight list: one fresh
random draw is appended, in order, for every vocab word whose token is not
among the keys accumulated so far. -/
theorem gw_fold_weights (randv : ℕ → List ℚ) :
    ∀ (vocab : List String) (wi : List (String × ℕ)) (ws : List (List ℚ)) (idx c : ℕ),
      vocab.Nodup →
      (vocab.foldl (gw_step randv) (wi, ws, idx, c)).2.1
        = ws ++ (List.range
            ((vocab.filter (fun w => !((wi.map (fun p => p.1)).contains w))).length)).map
            (fun j => randv (c + j)) := by
  intro vocab
  induction vocab with
  | nil =>
    intro wi ws idx c _
    simp
  | cons w rest ih =>
    intro wi ws idx c hnd
    obtain ⟨hw, hrest⟩ := List.nodup_cons.1 hnd
    rw [List.foldl_cons]
    by_cases hmem : (wi.map (fun p => p.1)).contains w
    · have hmem2 : ∃ x, (w, x) ∈ wi := by simpa using hmem
      rw [show gw_step randv (wi, ws, idx, c) w = (wi, ws, idx, c) from by
        simp [gw_step, hmem2]]
      rw [ih wi ws idx c hrest]
      have hf : (w :: rest).filter (fun x => !((wi.map (fun p => p.1)).contains x))
          = rest.filter (fun x => !((wi.map (fun p => p.1)).contains x)) := by
        simp [List.filter_cons, hmem2]
      rw [hf]
    · have hmem2 : ∀ x, (w, x) ∉ wi := by simpa using hmem
      rw [show gw_step randv (wi, ws, idx, c) w
          = (wi ++ [(w, idx)], ws ++ [randv c], idx + 1, c + 1) from by
        simp [gw_step, hmem2]]
      rw [ih (wi ++ [(w, idx)]) (ws ++ [randv c]) (idx + 1) (c + 1) hrest]
      have hfilter : rest.filter
            (fun x => !(((wi ++ [(w, idx)]).map (fun p => p.1)).contains x))
          = rest.filter (fun x => !((wi.map (fun p => p.1)).contains x)) := by
        apply List.filter_congr
        intro x hx
        have hxw : ¬(x = w) := fun h => hw (h ▸ hx)
        simp [List.map_append, hxw]
      have hlenf : ((w :: rest).filter (fun x => !((wi.map (fun p => p.1)).contains x))).length
          = (rest.filter (fun x => !((wi.map (fun p => p.1)).contains x))).length + 1 := by
        simp [List.filter_cons, hmem2]
      rw [hfilter, hlenf]
      generalize (rest.filter (fun x => !((wi.map (fun p => p.1)).contains x))).length = m
      rw [List.append_assoc, List.range_succ_eq_map]
      simp only [List.map_cons, Nat.add_zero, List.map_map, List.singleton_append]
      congr 1
      congr 1
      apply List.map_congr_left
      intro j hj
      simp only [Function.comp]
      congr 1
      omega

/-- Claim C9 (amended): for a nonempty weight file of F lines and a
duplicate-free vocabulary, `get_weights` with `add_zero=True` returns the F
file rows, then one fresh random draw per vocabulary token absent from the
file (M of them, in vocab order), then the zero padding row — so
(F + M + 1) rows with the final row all-zero, NOT `vocabulary_size + 1`
rows. -/
theorem get_weights_structure (file : List (String × List ℚ)) (vocab : List String)
    (randv : ℕ → List ℚ) (hfile : file ≠ []) (hnd : vocab.Nodup) :
    (get_weights file vocab randv true).2
      = (file.map (fun p => p.2)
          ++ (List.range (missingWords file vocab).length).map randv)
        ++ [List.replicate (file.headD (("") , [])).2.length 0]
    ∧ (get_weights file vocab randv true).2.length
        = file.length + (missingWords file vocab).length + 1
    ∧ (get_weights file vocab randv true).2.getLast?
        = some (List.replicate (file.headD (("") , [])).2.length 0) := by
  have hkeys0 : ((file.enum.map (fun p => (p.2.1, p.1))).map (fun p => p.1))
      = file.map (fun p => p.1) := by
    rw [List.map_map]
    have h1 : ((fun (p : String × ℕ) => p.1) ∘ (fun (p : ℕ × (String × List ℚ)) => (p.2.1, p.1)))
        = (fun (p : ℕ × (String × List ℚ)) => p.2.1) := rfl
    rw [h1]
    have h2 : (fun (p : ℕ × (String × List ℚ)) => p.2.1)
        = (fun (q : String × List ℚ) => q.1) ∘ Prod.snd := rfl
    rw [h2, ← List.map_map, List.enum_map_snd]
  have hmain := gw_fold_weights randv vocab (file.enum.map (fun p => (p.2.1, p.1)))
    (file.map (fun p => p.2)) file.length 0 hnd
  rw [hkeys0] at hmain
  have heq : (get_weights file vocab randv true).2
      = (file.map (fun p => p.2)
          ++ (List.range (missingWords file vocab).length).map randv)
        ++ [List.replicate (file.headD (("") , [])).2.length 0] := by
    show (vocab.foldl (gw_step randv)
        (file.enum.map (fun p => (p.2.1, p.1)), file.map (fun p => p.2), file.length, 0)).2.1
        ++ [List.replicate (file.headD (("") , [])).2.length 0] = _
    rw [hmain]
    simp only [missingWords]
    congr 2
    apply List.map_congr_left
    intro j hj
    rw [Nat.zero_add]
  refine ⟨heq, ?_, ?_⟩
  · rw [heq]
    simp only [List.length_append, List.length_map, List.length_range, List.length_cons,
      List.length_nil]
  · rw [heq, List.getLast?_concat]

/-- Witness for C9: file `a -> [1]`, vocabulary `["a", "c"]` (so one missing
word), constant random stream `[7]`. -/
theorem get_weights_structure_witness :
    (get_weights [(("a"), [1])] [("a"), ("c")] (fun _ => [7]) true).2
      = ([(("a"), [1])].map (fun p => p.2)
          ++ (List.range (missingWords [(("a"), [1])] [("a"), ("c")]).length).map
              (fun _ => [7]))
        ++ [List.replicate ([(("a"), [1])].headD (("") , [])).2.length 0]
    ∧ (get_weights [(("a"), [1])] [("a"), ("c")] (fun _ => [7]) true).2.length
        = [(("a"), [1])].length + (missingWords [(("a"), [1])] [("a"), ("c")]).length + 1
    ∧ (get_weights [(("a"), [1])] [("a"), ("c")] (fun _ => [7]) true).2.getLast?
        = some (List.replicate ([(("a"), [1])].headD (("") , [])).2.length 0) :=
  get_weights_structure [(("a"), [1])] [("a"), ("c")] (fun _ => [7])
    (by decide) (by decide)
